import Mathlib

/-!
Verification of the analytics engine of `sum_stock_anan.py` (stock-market
crash analysis dashboard).

Modelling conventions for the shallow embedding:
* Prices and returns are rationals (`ℚ`); the source computes with floats,
  and every claim under scrutiny is about exact arithmetic identities,
  orderings and missing-data patterns, which floats inherit from ℚ on the
  concrete inputs considered.
* A price series with its date index is a `List (ℤ × ℚ)` of
  (date, price) pairs.  For the analytics functions (`recovery_time`) a
  date is a day ordinal, so that subtraction of two dates is the
  calendar-day count produced by `(t2 - t1).days` on pandas timestamps.
  For the window-slicing functions a date is encoded as the integer
  `y * 10000 + m * 100 + d`; this encoding is strictly monotone in the
  calendar order, which is all label slicing uses.
* A pandas value that may be NaN is an `Option ℚ` (`none` = NaN), and a
  pandas operation that may raise is an `Except String` value.
* `Series.min()` / `Series.max()` / `Series.idxmin()` are embedded by
  their documented semantics on NaN-free data: minimum / maximum of the
  values, and the first index label attaining the minimum.
-/

namespace StockAnalysis

/-- Embedding of pandas `Series.min()` on a NaN-free series: `none` on an
empty series (pandas NaN), otherwise the least value. -/
def ser_min : List ℚ → Option ℚ
  | [] => none
  | x :: xs =>
    some (match ser_min xs with
      | none => x
      | some m => min x m)

/-- Embedding of pandas `Series.max()` on a NaN-free series: `none` on an
empty series (pandas NaN), otherwise the greatest value. -/
def ser_max : List ℚ → Option ℚ
  | [] => none
  | x :: xs =>
    some (match ser_max xs with
      | none => x
      | some m => max x m)

/-- Embedding of `series.cummax()` (line 47 / line 51): running maximum,
entry `t` is the maximum of the first `t+1` entries. -/
def cummax : List ℚ → List ℚ
  | [] => []
  | x :: xs => x :: (cummax xs).map (fun y => max x y)

/-- Embedding of `(series - roll_max) / roll_max` (lines 48 and 52): the
pointwise drawdown series. -/
def drawdowns (s : List ℚ) : List ℚ :=
  List.zipWith (fun x m => (x - m) / m) s (cummax s)

/-- Embedding of `max_drawdown` (lines 46–48):
`roll_max = series.cummax(); return ((series - roll_max) / roll_max).min()`. -/
def maxDrawdown (s : List ℚ) : Option ℚ :=
  ser_min (drawdowns s)

/-- Embedding of `recovery_time` (lines 50–59) on a (date, price) series
with day-ordinal dates.
* `trough = drawdown.idxmin()`: first date label attaining the minimal
  drawdown (pandas returns the first row label on ties, and raises on an
  empty series).
* `peak_before = series.loc[:trough].max()`: label slicing on a sorted
  unique index is `takeWhile (date ≤ trough)`, inclusive of the trough.
* `post = series.loc[trough:]` is `dropWhile (date < trough)`.
* `post[post >= peak_before].first_valid_index()` is the first entry of
  `post` with price ≥ peak, `none` when there is none.
* `if recover_idx:` — a pandas `Timestamp` is always truthy and `None` is
  falsy, so the branch is exactly a match on the option; the returned
  value is `(recover_idx - trough).days`, the day-ordinal difference. -/
def recoveryTime (ps : List (ℤ × ℚ)) : Except String (Option ℤ) :=
  let prices := ps.map Prod.snd
  let dd := drawdowns prices
  match ser_min dd with
  | none => .error "ValueError: attempt to get argmin of an empty sequence"
  | some m =>
    match ps.get? (dd.findIdx (fun x => decide (x = m))) with
    | none => .error "ValueError: idxmin out of range"
    | some te =>
      match ser_max ((ps.takeWhile (fun p => decide (p.1 ≤ te.1))).map Prod.snd) with
      | none => .error "nan peak"
      | some peak =>
        match (ps.dropWhile (fun p => decide (p.1 < te.1))).find?
            (fun q => decide (peak ≤ q.2)) with
        | some r => .ok (some (r.1 - te.1))
        | none => .ok none

/-- Embedding of line 79,
`f"- **Recovery Time:** {rt if rt else 'Not recovered'} days"`:
a Python `int` is falsy exactly when it is `0`, and `None` is falsy. -/
def recoveryLine (rt : Option ℤ) : String :=
  (match rt with
   | some n => if n = 0 then "Not recovered" else toString n
   | none => "Not recovered") ++ " days"

/-- Date label of January 1st of year `y` in the monotone integer encoding
`y * 10000 + m * 100 + d`; embeds the f-strings `f"{year-1}-01-01"` and
`f"{year+1}-01-01"` of lines 64–65. -/
def jan1 (y : ℤ) : ℤ :=
  y * 10000 + 101

/-- Embedding of pandas label slicing `ser.loc[a:b]` on a series sorted by
date: drop the labels before `a`, keep the labels up to and including `b`
(pandas `.loc` label slices are inclusive of both endpoints, and labels
absent from the index simply bound the returned run — no error). -/
def locSlice (s : List (ℤ × ℚ)) (a b : ℤ) : List (ℤ × ℚ) :=
  (s.dropWhile (fun p => decide (p.1 < a))).takeWhile (fun p => decide (p.1 ≤ b))

/-- Embedding of the assembler's window slice (lines 64–68 and 85):
`ser.loc[f"{year-1}-01-01":f"{year+1}-01-01"]`. -/
def windowSlice (s : List (ℤ × ℚ)) (year : ℤ) : List (ℤ × ℚ) :=
  locSlice s (jan1 (year - 1)) (jan1 (year + 1))

/-- Embedding of line 86, `ser / ser.iloc[0]`: `iloc[0]` raises
`IndexError` on an empty series, otherwise the series is divided by its
first value. -/
def normalizeSer : List ℚ → Except String (List ℚ)
  | [] => .error "IndexError: single positional indexer is out-of-bounds"
  | x :: xs => .ok ((x :: xs).map (fun v => v / x))

/-- Embedding of one iteration of the sector loop (lines 84–86): slice the
sector series to the crash window, then normalize by the first element. -/
def sectorPerfColumn (s : List (ℤ × ℚ)) (year : ℤ) : Except String (List ℚ) :=
  normalizeSer ((windowSlice s year).map Prod.snd)

/-- Arithmetic mean of a list of rationals (`Σ / n`; `0` on the empty list
since `x / 0 = 0` in ℚ, matching the only use sites, which guard length). -/
def mean (l : List ℚ) : ℚ :=
  l.sum / l.length

/-- Sample variance with `ddof = 1` (divisor `n - 1`), the default of
pandas `rolling(...).std()` squared. -/
def sampleVar (l : List ℚ) : ℚ :=
  ((l.map (fun x => (x - mean l) ^ 2)).sum) / ((l.length : ℚ) - 1)

/-- Embedding of `ret.rolling(window=w).std()` (line 98), reported as the
squared standard deviation (the sample variance): the pandas value is the
square root of each `some` entry, and an entry is `none` (NaN) exactly
when the pandas entry is NaN, since `min_periods` defaults to the window
length.  Entry `i` covers the trailing window `xs[i+1-w .. i]`. -/
def rollingVar (w : ℕ) (xs : List ℚ) : List (Option ℚ) :=
  (List.range xs.length).map (fun i =>
    if w ≤ i + 1 then some (sampleVar ((xs.take (i + 1)).drop (i + 1 - w))) else none)

/-- Line 98 with the concrete window: `ret.rolling(window=30).std()`. -/
def vol30 (xs : List ℚ) : List (Option ℚ) :=
  rollingVar 30 xs

/-- Helper of `pctChange`: percentage change of each entry against the
previous price `prev`. -/
def pctChangeGo (prev : ℚ) : List (ℤ × ℚ) → List (ℤ × Option ℚ)
  | [] => []
  | (d, p) :: rest => (d, some (p / prev - 1)) :: pctChangeGo p rest

/-- Embedding of `ser.pct_change()` (lines 97 and 105): NaN at the first
date, then `p_t / p_(t-1) - 1`. -/
def pctChange : List (ℤ × ℚ) → List (ℤ × Option ℚ)
  | [] => []
  | (d, p) :: rest => (d, none) :: pctChangeGo p rest

/-- Embedding of `.dropna()` (line 97): keep the entries whose value is
present. -/
def dropna (l : List (ℤ × Option ℚ)) : List (ℤ × ℚ) :=
  l.filterMap (fun q => q.2.map (fun v => (q.1, v)))

/-- Embedding of column assignment `corr_df[name] = sec_ret` (line 106):
the assigned series is aligned to the frame's index — at each frame date
the value is the series value at that date when the date is present
(possibly NaN), and NaN when the date is absent. -/
def alignCol (dates : List ℤ) (sr : List (ℤ × Option ℚ)) : List (Option ℚ) :=
  dates.map (fun d => (sr.lookup d).join)

/-- Embedding of the construction of `corr_df` (lines 103–106): the frame
index is the date index of `ret = idx_ser.pct_change().dropna()`; the
first column holds the index returns, and each sector column holds
`sector.pct_change()` (no `dropna` on line 105) aligned to that index. -/
def corrCols (idx : List (ℤ × ℚ)) (sectors : List (List (ℤ × ℚ))) :
    List (List (Option ℚ)) :=
  let ret := dropna (pctChange idx)
  let dates := ret.map Prod.fst
  (ret.map (fun q => some q.2)) :: sectors.map (fun s => alignCol dates (pctChange s))

/-- Pair deletion of `DataFrame.corr()`: the observations at the row
positions where both columns are non-NaN. -/
def pairObs (xs ys : List (Option ℚ)) : List (ℚ × ℚ) :=
  (xs.zip ys).filterMap (fun q =>
    match q with
    | (some a, some b) => some (a, b)
    | _ => none)

/-- Signed-square representation of the Pearson correlation of a list of
paired observations: with centred sums `sxy, sxx, syy`, the pandas value
is `r = sxy / sqrt (sxx * syy)` and this function returns
`r * |r| = sxy * |sxy| / (sxx * syy)`, from which `r` is recovered
exactly (`r` is the signed square root); it returns `none` exactly when
pandas returns NaN (a zero variance, which also covers fewer than two
observations). -/
def corrRep (ps : List (ℚ × ℚ)) : Option ℚ :=
  let mx := mean (ps.map Prod.fst)
  let my := mean (ps.map Prod.snd)
  let sxx := (ps.map (fun q => (q.1 - mx) ^ 2)).sum
  let syy := (ps.map (fun q => (q.2 - my) ^ 2)).sum
  let sxy := (ps.map (fun q => (q.1 - mx) * (q.2 - my))).sum
  if sxx = 0 ∨ syy = 0 then none else some (sxy * |sxy| / (sxx * syy))

/-- Embedding of `corr = corr_df.corr()` (line 108): every pairwise entry
is the Pearson statistic over that pair's own non-NaN rows (pandas
pairwise deletion), in the signed-square representation of `corrRep`. -/
def corrMatrix (idx : List (ℤ × ℚ)) (sectors : List (List (ℤ × ℚ))) :
    List (List (Option ℚ)) :=
  let cols := corrCols idx sectors
  cols.map (fun a => cols.map (fun b => corrRep (pairObs a b)))

/-- Raw dataset shapes returned by the data source (§6 of the spec): flat
(single level of field-labelled columns) or grouped (two column levels,
instrument then field).  Column payloads are price lists. -/
inductive RawDF where
  | flat (cols : List (String × List ℚ))
  | multi (cols : List (String × List (String × List ℚ)))

/-- Embedding of `get_adj_close` (lines 39–43): on a two-level
(`MultiIndex`) frame, `raw_df[ticker]["Close"]`; otherwise `raw_df["Close"]`.
A failed column lookup raises a `KeyError`. -/
def get_adj_close : RawDF → String → Except String (List ℚ)
  | .multi cols, ticker =>
    match cols.lookup ticker with
    | none => .error ("KeyError: " ++ ticker)
    | some grp =>
      match grp.lookup "Close" with
      | none => .error "KeyError: Close"
      | some s => .ok s
  | .flat cols, _ =>
    match cols.lookup "Close" with
    | none => .error "KeyError: Close"
    | some s => .ok s

/-- Flat shape: single-level columns containing a `Close` field. -/
def flatShape : RawDF → Bool
  | .flat cols => (cols.lookup "Close").isSome
  | .multi _ => false

/-- Grouped shape serving the instrument `t`: two-level columns with a
group for `t` containing a `Close` field. -/
def groupedShapeFor : RawDF → String → Bool
  | .multi cols, t =>
    match cols.lookup t with
    | some grp => (grp.lookup "Close").isSome
    | none => false
  | .flat _, _ => false

/-! ### Spec-side definitions

These definitions follow the wording of the specification (and of the
claims derived from it); they are compared with the source embeddings
above. -/

/-- Modelled from the spec: the running maximum `M(t) = max(series[0..t])`
of `max_drawdown` and `recovery_time`. -/
def Mspec : List ℚ → ℕ → ℚ
  | [], _ => 0
  | x :: _, 0 => x
  | x :: xs, t + 1 => max x (Mspec xs t)

/-- Modelled from the spec: `drawdown(t) = (series[t] - M(t)) / M(t)`. -/
def ddSpec (s : List ℚ) (t : ℕ) : ℚ :=
  (s.getD t 0 - Mspec s t) / Mspec s t

/-- Spec drawdown sequence as a list over all indices. -/
def ddListSpec (s : List ℚ) : List ℚ :=
  (List.range s.length).map (ddSpec s)

/-- Modelled from the spec: the trough `t* = argmin(drawdown(t))`, taking
the earliest index on ties. -/
def troughIdxSpec (s : List ℚ) : ℕ :=
  match ser_min (ddListSpec s) with
  | none => 0
  | some m => (ddListSpec s).findIdx (fun x => decide (x = m))

/-- Modelled from the spec: `recovery_time` as described — trough at the
earliest minimal drawdown, `peak = max(series[0..t*])`, first `t' ≥ t*`
with `series[t'] ≥ peak`, result `date(t') - date(t*)` in days, else the
unrecovered sentinel `none`. -/
def recoverySpec (ps : List (ℤ × ℚ)) : Option ℤ :=
  let prices := ps.map Prod.snd
  let i := troughIdxSpec prices
  match ps.get? i with
  | none => none
  | some te =>
    match ser_max (prices.take (i + 1)) with
    | none => none
    | some peak =>
      match (ps.drop i).find? (fun q => decide (peak ≤ q.2)) with
      | some r => some (r.1 - te.1)
      | none => none

/-- Modelled from the spec (claim C3): the half-open window
`[Y-1-01-01, Y+1-01-01)` — start included, end excluded. -/
def windowSliceSpec (s : List (ℤ × ℚ)) (year : ℤ) : List (ℤ × ℚ) :=
  s.filter (fun p => decide (jan1 (year - 1) ≤ p.1 ∧ p.1 < jan1 (year + 1)))

/-- Dates present in every one of the given date indices (inner join of
all of them); the spec's common date intersection. -/
def commonDates (all : List (List ℤ)) : List ℤ :=
  match all with
  | [] => []
  | d :: rest => d.filter (fun x => rest.all (fun l => l.contains x))

/-- Modelled from the spec: the correlation matrix over the index and the
sector return series (each a `pct_change` with the first entry dropped),
with every entry computed over the one shared date set — the intersection
of the date indices of all the series — in the same signed-square
representation as `corrRep`. -/
def specCorrMatrix (idx : List (ℤ × ℚ)) (sectors : List (List (ℤ × ℚ))) :
    List (List (Option ℚ)) :=
  let all := dropna (pctChange idx) :: sectors.map (fun s => dropna (pctChange s))
  let common := commonDates (all.map (fun l => l.map Prod.fst))
  all.map (fun a => all.map (fun b =>
    corrRep (common.filterMap (fun d =>
      match a.lookup d, b.lookup d with
      | some x, some y => some (x, y)
      | _, _ => none))))

/-- Return series underlying each column of `corrCols`, used to state the
amended C4: the index return series and each sector return series, as
date-keyed `pct_change` outputs. -/
def seriesOfCol (idx : List (ℤ × ℚ)) (sectors : List (List (ℤ × ℚ))) :
    List (List (ℤ × Option ℚ)) :=
  pctChange idx :: sectors.map pctChange

/-- Concrete index price series for the C4 counterexample. -/
def cexIdx : List (ℤ × ℚ) :=
  [(0, 1), (1, 2), (2, 1)]

/-- Concrete sector price series, disjoint in dates from `cexIdx`. -/
def cexDisjoint : List (ℤ × ℚ) :=
  [(10, 1), (11, 1)]

/-- Concrete five-sector universe for the C4 counterexample: four sectors
identical to the index and one with a disjoint date range. -/
def cexSectors : List (List (ℤ × ℚ)) :=
  [cexIdx, cexIdx, cexIdx, cexIdx, cexDisjoint]

end StockAnalysis

namespace StockAnalysis

/-! ### Helper lemmas -/

theorem ser_min_isSome {l : List ℚ} (h : l ≠ []) : (ser_min l).isSome := by
  cases l with
  | nil => exact absurd rfl h
  | cons x xs => simp [ser_min]

theorem ser_min_mem : ∀ {l : List ℚ} {m : ℚ}, ser_min l = some m → m ∈ l := by
  intro l
  induction l with
  | nil => intro m h; simp [ser_min] at h
  | cons x xs ih =>
    intro m h
    rw [ser_min] at h
    cases hxs : ser_min xs with
    | none =>
      rw [hxs] at h
      simp at h
      simp [h]
    | some m0 =>
      rw [hxs] at h
      simp at h
      rcases min_cases x m0 with ⟨heq, _⟩ | ⟨heq, _⟩
      · rw [heq] at h; simp [h]
      · rw [heq] at h
        exact List.mem_cons_of_mem x (h ▸ ih hxs)

theorem ser_min_le : ∀ {l : List ℚ} {m : ℚ}, ser_min l = some m → ∀ a ∈ l, m ≤ a := by
  intro l
  induction l with
  | nil => intro m h; simp [ser_min] at h
  | cons x xs ih =>
    intro m h a ha
    rw [ser_min] at h
    cases hxs : ser_min xs with
    | none =>
      rw [hxs] at h
      simp at h
      cases xs with
      | nil =>
        rcases List.mem_singleton.mp ha with rfl
        exact le_of_eq h.symm
      | cons y ys => simp [ser_min] at hxs
    | some m0 =>
      rw [hxs] at h
      simp at h
      rcases List.mem_cons.mp ha with rfl | ha'
      · exact h ▸ min_le_left _ _
      · exact le_trans (h ▸ min_le_right _ _) (ih hxs a ha')

theorem ser_max_isSome {l : List ℚ} (h : l ≠ []) : (ser_max l).isSome := by
  cases l with
  | nil => exact absurd rfl h
  | cons x xs => simp [ser_max]

theorem ser_max_mem : ∀ {l : List ℚ} {m : ℚ}, ser_max l = some m → m ∈ l := by
  intro l
  induction l with
  | nil => intro m h; simp [ser_max] at h
  | cons x xs ih =>
    intro m h
    rw [ser_max] at h
    cases hxs : ser_max xs with
    | none =>
      rw [hxs] at h
      simp at h
      simp [h]
    | some m0 =>
      rw [hxs] at h
      simp at h
      rcases max_cases x m0 with ⟨heq, _⟩ | ⟨heq, _⟩
      · rw [heq] at h; simp [h]
      · rw [heq] at h
        exact List.mem_cons_of_mem x (h ▸ ih hxs)

theorem ser_max_ge : ∀ {l : List ℚ} {m : ℚ}, ser_max l = some m → ∀ a ∈ l, a ≤ m := by
  intro l
  induction l with
  | nil => intro m h; simp [ser_max] at h
  | cons x xs ih =>
    intro m h a ha
    rw [ser_max] at h
    cases hxs : ser_max xs with
    | none =>
      rw [hxs] at h
      simp at h
      cases xs with
      | nil =>
        rcases List.mem_singleton.mp ha with rfl
        exact le_of_eq h
      | cons y ys => simp [ser_max] at hxs
    | some m0 =>
      rw [hxs] at h
      simp at h
      rcases List.mem_cons.mp ha with rfl | ha'
      · exact h ▸ le_max_left _ _
      · exact le_trans (ih hxs a ha') (h ▸ le_max_right _ _)

theorem takeWhile_le_eq_filter (b : ℤ) :
    ∀ (s : List (ℤ × ℚ)), List.Pairwise (fun p q : ℤ × ℚ => p.1 < q.1) s →
      s.takeWhile (fun p => decide (p.1 ≤ b)) = s.filter (fun p => decide (p.1 ≤ b)) := by
  intro s
  induction s with
  | nil => intro _; rfl
  | cons x t ih =>
    intro h
    rcases List.pairwise_cons.mp h with ⟨hx, ht⟩
    by_cases hxb : x.1 ≤ b
    · simp [List.takeWhile_cons, List.filter_cons, hxb, ih ht]
    · have hnil : t.filter (fun p => decide (p.1 ≤ b)) = [] := by
        rw [List.filter_eq_nil_iff]
        intro q hq
        have hb : b < q.1 := lt_trans (lt_of_not_le hxb) (hx q hq)
        simp [not_le.mpr hb]
      simp [List.takeWhile_cons, List.filter_cons, hxb, hnil]

theorem dropWhile_lt_eq_filter (a : ℤ) :
    ∀ (s : List (ℤ × ℚ)), List.Pairwise (fun p q : ℤ × ℚ => p.1 < q.1) s →
      s.dropWhile (fun p => decide (p.1 < a)) = s.filter (fun p => decide (a ≤ p.1)) := by
  intro s
  induction s with
  | nil => intro _; rfl
  | cons x t ih =>
    intro h
    rcases List.pairwise_cons.mp h with ⟨hx, ht⟩
    by_cases hxa : x.1 < a
    · have hna : ¬a ≤ x.1 := not_le.mpr hxa
      simp [List.dropWhile_cons, List.filter_cons, hxa, hna, ih ht]
    · have hax : a ≤ x.1 := not_lt.mp hxa
      have hfull : t.filter (fun p => decide (a ≤ p.1)) = t := by
        rw [List.filter_eq_self]
        intro q hq
        simp [le_of_lt (lt_of_le_of_lt hax (hx q hq))]
      simp [List.dropWhile_cons, List.filter_cons, hxa, hax, hfull]

/-! ### Claim C3 — window slicing -/

/-- Claim C3 counterexample: the claim says the end date `Y+1-01-01` is
excluded from the window, but pandas `.loc[start:end]` label slicing is
inclusive of both endpoints; a series with an observation dated exactly
`Y+1-01-01` keeps it in the code's slice while the half-open window of
the claim drops it. -/
theorem C3_counterexample :
    windowSlice [((20210101 : ℤ), (5 : ℚ))] 2020 = [((20210101 : ℤ), (5 : ℚ))] ∧
    windowSliceSpec [((20210101 : ℤ), (5 : ℚ))] 2020 = [] ∧
    windowSlice [((20210101 : ℤ), (5 : ℚ))] 2020 ≠
      windowSliceSpec [((20210101 : ℤ), (5 : ℚ))] 2020 := by
  refine ⟨by decide, by decide, by decide⟩

/-- Claim C3, amended: for every crash year and every date-sorted price
series, the window slice contains exactly the observations whose dates
fall within the closed interval `[Y-1-01-01, Y+1-01-01]` — both the start
and the end date are included; when the window extends beyond the
available data the available subset is returned without error (the slice
is a total function equal to a filter of the data). -/
theorem C3_window_closed (s : List (ℤ × ℚ)) (year : ℤ)
    (hs : List.Pairwise (fun p q : ℤ × ℚ => p.1 < q.1) s) :
    windowSlice s year =
      s.filter (fun p => decide (jan1 (year - 1) ≤ p.1 ∧ p.1 ≤ jan1 (year + 1))) := by
  rw [windowSlice, locSlice, dropWhile_lt_eq_filter _ s hs,
    takeWhile_le_eq_filter _ _ (hs.filter _), List.filter_filter]
  apply List.filter_congr
  intro p _
  simp [Bool.and_comm]

/-- Witness for `C3_window_closed` at a concrete sorted series. -/
theorem C3_window_closed_witness :
    windowSlice [((20191231 : ℤ), (1 : ℚ)), ((20200106 : ℤ), (2 : ℚ)),
        ((20210101 : ℤ), (3 : ℚ)), ((20210104 : ℤ), (4 : ℚ))] 2020 =
      [((20191231 : ℤ), (1 : ℚ)), ((20200106 : ℤ), (2 : ℚ)),
        ((20210101 : ℤ), (3 : ℚ)), ((20210104 : ℤ), (4 : ℚ))].filter
        (fun p => decide (jan1 (2020 - 1) ≤ p.1 ∧ p.1 ≤ jan1 (2020 + 1))) :=
  C3_window_closed _ 2020 (by decide)

end StockAnalysis

namespace StockAnalysis

/-! ### Claim C5 — unrecovered display (code bug) -/

/-- Claim C5 evaluated at a failing input: on the non-decreasing series
[(day 0, 100), (day 1, 110)] the engine's `recovery_time` finds a
recovery and returns the valid numeric count 0, yet the report line
renders it identically to the unrecovered outcome, because the Python
expression `rt if rt else 'Not recovered'` treats the integer 0 as falsy.
A genuinely unrecovered series and a 0-day recovery are therefore
conflated, contradicting the claim (and §7 of the spec, which demands
that a numeric recovery count is never coerced into the unrecovered
marker). -/
theorem C5_zero_day_conflation :
    recoveryTime [((0 : ℤ), (100 : ℚ)), ((1 : ℤ), (110 : ℚ))] = .ok (some 0) ∧
    recoveryLine (some 0) = recoveryLine none ∧
    recoveryLine (some 1) ≠ recoveryLine none := by
  refine ⟨?_, rfl, by decide⟩
  norm_num [recoveryTime, drawdowns, cummax, ser_min, ser_max, List.findIdx, List.findIdx.go]

/-! ### Claim C6 — rolling volatility -/

/-- Claim C6: `rolling_volatility` with window 30 (line 98,
`ret.rolling(window=30).std()`) computes the sample statistic with
`ddof = 1` over each trailing window of 30 consecutive observations
(`sampleVar` divides the centred sum of squares by `n - 1`; the pandas
entry is its square root), the output is as long as the input and has
exactly 29 leading `none` entries when the input has length ≥ 30 (every
position `i < 29` is `none`, every position `i ≥ 29` carries a value),
every entry is `none` when the input has length < 30, and a missing
entry is the distinct marker `none`, never the number `0`. -/
theorem C6_rolling_vol (xs : List ℚ) :
    (vol30 xs).length = xs.length ∧
    (∀ i, i < xs.length → i < 29 →
      (vol30 xs)[i]? = some none ∧ (vol30 xs)[i]? ≠ some (some 0)) ∧
    (∀ i, i < xs.length → 29 ≤ i →
      (vol30 xs)[i]? = some (some (sampleVar ((xs.take (i + 1)).drop (i - 29))))) ∧
    (xs.length < 30 → ∀ o ∈ vol30 xs, o = none) := by
  refine ⟨by simp [vol30, rollingVar], ?_, ?_, ?_⟩
  · intro i hi hi29
    have hr : (List.range xs.length)[i]? = some i := List.getElem?_range hi
    have hif : ¬(30 ≤ i + 1) := by omega
    have hfix : (vol30 xs)[i]? = some none := by
      rw [vol30, rollingVar, List.getElem?_map, hr]
      simp only [Option.map_some']
      rw [if_neg hif]
    exact ⟨hfix, by rw [hfix]; simp⟩
  · intro i hi hi29
    have hr : (List.range xs.length)[i]? = some i := List.getElem?_range hi
    have hif : 30 ≤ i + 1 := by omega
    have hsub : i + 1 - 30 = i - 29 := by omega
    rw [vol30, rollingVar, List.getElem?_map, hr]
    simp only [Option.map_some']
    rw [if_pos hif, hsub]
  · intro hlen o ho
    rw [vol30, rollingVar] at ho
    rcases List.mem_map.mp ho with ⟨i, hi, hfo⟩
    have : i < xs.length := List.mem_range.mp hi
    have hif : ¬(30 ≤ i + 1) := by omega
    rw [if_neg hif] at hfo
    exact hfo.symm

/-- Witness for `C6_rolling_vol` on the constant series of thirty ones:
29 leading missing entries, then the variance of a constant window, 0. -/
theorem C6_rolling_vol_witness :
    (vol30 (List.replicate 30 (1 : ℚ))).length = 30 ∧
    (vol30 (List.replicate 30 (1 : ℚ)))[0]? = some none ∧
    (vol30 (List.replicate 30 (1 : ℚ)))[29]? =
      some (some (sampleVar (((List.replicate 30 (1 : ℚ)).take 30).drop 0))) := by
  obtain ⟨h1, h2, h3, _⟩ := C6_rolling_vol (List.replicate 30 (1 : ℚ))
  refine ⟨by simpa using h1, (h2 0 (by simp) (by omega)).1, ?_⟩
  simpa using h3 29 (by simp) (by omega)

/-! ### Claim C7 — normalization -/

/-- Claim C7: for every non-empty strictly positive price series, the
normalized series of line 86 (`ser / ser.iloc[0]`) satisfies
`series'[t] = series[t] / series[0]` at every index, and its first
element is exactly 1. -/
theorem C7_normalize (s : List ℚ) (hne : s ≠ []) (hpos : ∀ x ∈ s, 0 < x) :
    ∃ l, normalizeSer s = .ok l ∧ l.length = s.length ∧
      (∀ t, t < s.length → l.getD t 0 = s.getD t 0 / s.getD 0 0) ∧
      l.getD 0 0 = 1 := by
  match s, hne with
  | x :: xs, _ =>
    have hx : x ≠ 0 := ne_of_gt (hpos x (List.mem_cons_self x xs))
    refine ⟨(x :: xs).map (fun v => v / x), rfl, by simp, ?_, by simp [hx]⟩
    intro t ht
    rcases List.getElem?_eq_some.mpr ⟨ht, rfl⟩ with hsome
    rw [List.getD_eq_getElem?_getD, List.getD_eq_getElem?_getD, List.getElem?_map, hsome]
    simp

/-- Witness for `C7_normalize` at the concrete series [2, 4]. -/
theorem C7_normalize_witness :
    ∃ l, normalizeSer [(2 : ℚ), 4] = .ok l ∧ l.length = ([(2 : ℚ), 4] : List ℚ).length ∧
      (∀ t, t < ([(2 : ℚ), 4] : List ℚ).length →
        l.getD t 0 = ([(2 : ℚ), 4] : List ℚ).getD t 0 / ([(2 : ℚ), 4] : List ℚ).getD 0 0) ∧
      l.getD 0 0 = 1 :=
  C7_normalize [2, 4] (by decide) (by decide)

/-! ### Claim C8 — Store shape normalization -/

/-- Claim C8: `get_adj_close` (lines 39–43) maps both source shapes to
the requested closing-price series — on a flat frame it returns the
frame's `Close` column (the frame of the single requested instrument),
and on a grouped frame it returns the `Close` column of the requested
instrument's group, never another instrument's — and on every dataset
whose shape is neither flat nor grouped for the request it produces an
explicit `KeyError`, not a silently misread column. -/
theorem C8_shape_normalization (df : RawDF) (t : String) :
    (flatShape df = true →
      ∃ cols s, df = RawDF.flat cols ∧ cols.lookup "Close" = some s ∧
        get_adj_close df t = .ok s) ∧
    (groupedShapeFor df t = true →
      ∃ cols grp s, df = RawDF.multi cols ∧ cols.lookup t = some grp ∧
        grp.lookup "Close" = some s ∧ get_adj_close df t = .ok s) ∧
    (flatShape df = false → groupedShapeFor df t = false →
      ∃ e, get_adj_close df t = .error e) := by
  cases df with
  | flat cols =>
    refine ⟨?_, ?_, ?_⟩
    · intro h
      rw [flatShape] at h
      cases hc : cols.lookup "Close" with
      | none => rw [hc] at h; simp at h
      | some s => exact ⟨cols, s, rfl, hc, by rw [get_adj_close, hc]⟩
    · intro h
      rw [groupedShapeFor] at h
      simp at h
    · intro h _
      rw [flatShape] at h
      cases hc : cols.lookup "Close" with
      | none => exact ⟨"KeyError: Close", by rw [get_adj_close, hc]⟩
      | some s => rw [hc] at h; simp at h
  | multi cols =>
    refine ⟨?_, ?_, ?_⟩
    · intro h
      rw [flatShape] at h
      simp at h
    · intro h
      cases ht : cols.lookup t with
      | none => simp [groupedShapeFor, ht] at h
      | some grp =>
        cases hc : grp.lookup "Close" with
        | none => simp [groupedShapeFor, ht, hc] at h
        | some s =>
          exact ⟨cols, grp, s, rfl, ht, hc, by simp [get_adj_close, ht, hc]⟩
    · intro _ h
      cases ht : cols.lookup t with
      | none => exact ⟨"KeyError: " ++ t, by simp [get_adj_close, ht]⟩
      | some grp =>
        cases hc : grp.lookup "Close" with
        | none => exact ⟨"KeyError: Close", by simp [get_adj_close, ht, hc]⟩
        | some s => simp [groupedShapeFor, ht, hc] at h

/-- Witness for `C8_shape_normalization` on a concrete grouped frame. -/
theorem C8_shape_normalization_witness :
    (flatShape (RawDF.multi [("XLK", [("Close", [(3 : ℚ)])])]) = true →
      ∃ cols s, RawDF.multi [("XLK", [("Close", [(3 : ℚ)])])] = RawDF.flat cols ∧
        cols.lookup "Close" = some s ∧
        get_adj_close (RawDF.multi [("XLK", [("Close", [(3 : ℚ)])])]) "XLK" = .ok s) ∧
    (groupedShapeFor (RawDF.multi [("XLK", [("Close", [(3 : ℚ)])])]) "XLK" = true →
      ∃ cols grp s, RawDF.multi [("XLK", [("Close", [(3 : ℚ)])])] = RawDF.multi cols ∧
        cols.lookup "XLK" = some grp ∧ grp.lookup "Close" = some s ∧
        get_adj_close (RawDF.multi [("XLK", [("Close", [(3 : ℚ)])])]) "XLK" = .ok s) ∧
    (flatShape (RawDF.multi [("XLK", [("Close", [(3 : ℚ)])])]) = false →
      groupedShapeFor (RawDF.multi [("XLK", [("Close", [(3 : ℚ)])])]) "XLK" = false →
      ∃ e, get_adj_close (RawDF.multi [("XLK", [("Close", [(3 : ℚ)])])]) "XLK" = .error e) :=
  C8_shape_normalization (RawDF.multi [("XLK", [("Close", [(3 : ℚ)])])]) "XLK"

/-! ### Claim C10 — empty window slice (implicit behaviour) -/

/-- Claim C10: when the selected window contains no observations for a
sector, the normalization of lines 85–86 raises the out-of-range
`IndexError` of `iloc[0]` — it does not return a sentinel or a partial
result; no empty-input guard exists in the code. -/
theorem C10_empty_window_raises (s : List (ℤ × ℚ)) (year : ℤ)
    (h : windowSlice s year = []) :
    sectorPerfColumn s year =
      .error "IndexError: single positional indexer is out-of-bounds" := by
  rw [sectorPerfColumn, h]
  rfl

/-- Witness for `C10_empty_window_raises`: a sector whose only
observation (day ordinal 0) lies outside the 2020 crash window. -/
theorem C10_empty_window_raises_witness :
    sectorPerfColumn [((0 : ℤ), (5 : ℚ))] 2020 =
      .error "IndexError: single positional indexer is out-of-bounds" :=
  C10_empty_window_raises [((0 : ℤ), (5 : ℚ))] 2020 (by decide)

end StockAnalysis

namespace StockAnalysis

/-! ### Drawdown lemmas -/

theorem getD_eq_getElem_of_lt {l : List ℚ} {n : ℕ} (h : n < l.length) :
    l.getD n 0 = l[n] := by
  rw [List.getD_eq_getElem?_getD, List.getElem?_eq_getElem h]
  rfl

theorem cummax_length (s : List ℚ) : (cummax s).length = s.length := by
  induction s with
  | nil => rfl
  | cons x xs ih => simp [cummax, ih]

theorem cummax_getD :
    ∀ (s : List ℚ) (t : ℕ), t < s.length → (cummax s).getD t 0 = Mspec s t := by
  intro s
  induction s with
  | nil => intro t ht; simp at ht
  | cons x xs ih =>
    intro t ht
    cases t with
    | zero => simp [cummax, Mspec]
    | succ n =>
      have hn : n < xs.length := by simpa using Nat.lt_of_succ_lt_succ ht
      have hn2 : n < (cummax xs).length := by rw [cummax_length]; exact hn
      rw [cummax, List.getD_cons_succ, List.getD_eq_getElem?_getD, List.getElem?_map,
        List.getElem?_eq_getElem hn2]
      simp only [Option.map_some', Option.getD_some]
      have hrec := ih n hn
      rw [getD_eq_getElem_of_lt hn2] at hrec
      rw [hrec]
      rfl

theorem drawdowns_length (s : List ℚ) : (drawdowns s).length = s.length := by
  simp [drawdowns, cummax_length]

theorem drawdowns_getD (s : List ℚ) (t : ℕ) (ht : t < s.length) :
    (drawdowns s).getD t 0 = ddSpec s t := by
  have h1 : t < (drawdowns s).length := by rw [drawdowns_length]; exact ht
  have h2 : t < (cummax s).length := by rw [cummax_length]; exact ht
  rw [getD_eq_getElem_of_lt h1]
  have hz : (drawdowns s)[t] = (s[t] - (cummax s)[t]) / (cummax s)[t] := by
    show (List.zipWith (fun x m => (x - m) / m) s (cummax s))[t] = _
    rw [List.getElem_zipWith]
  rw [hz]
  have hc : (cummax s)[t] = Mspec s t := by
    have hcd := cummax_getD s t ht
    rwa [getD_eq_getElem_of_lt h2] at hcd
  rw [hc, ddSpec, getD_eq_getElem_of_lt ht]

theorem drawdowns_eq_ddListSpec (s : List ℚ) : drawdowns s = ddListSpec s := by
  apply List.ext_getElem
  · simp [drawdowns_length, ddListSpec]
  · intro n h1 h2
    have hn : n < s.length := by rwa [drawdowns_length] at h1
    have hr2 : (ddListSpec s)[n] = ddSpec s n := by
      have hr : n < (List.range s.length).length := by simpa using hn
      show ((List.range s.length).map (ddSpec s))[n] = ddSpec s n
      rw [List.getElem_map, List.getElem_range]
    rw [hr2, ← getD_eq_getElem_of_lt h1, drawdowns_getD s n hn]

theorem Mspec_pos :
    ∀ (s : List ℚ), (∀ x ∈ s, 0 < x) → ∀ t, t < s.length → 0 < Mspec s t := by
  intro s
  induction s with
  | nil => intro _ t ht; simp at ht
  | cons x xs ih =>
    intro hpos t ht
    cases t with
    | zero => exact hpos x (List.mem_cons_self x xs)
    | succ n =>
      have hx : 0 < x := hpos x (List.mem_cons_self x xs)
      rw [Mspec]
      exact lt_max_iff.mpr (Or.inl hx)

theorem getD_le_Mspec :
    ∀ (s : List ℚ) (t : ℕ), t < s.length → s.getD t 0 ≤ Mspec s t := by
  intro s
  induction s with
  | nil => intro t ht; simp at ht
  | cons x xs ih =>
    intro t ht
    cases t with
    | zero => simp [Mspec]
    | succ n =>
      have hn : n < xs.length := by simpa using Nat.lt_of_succ_lt_succ ht
      rw [Mspec, List.getD_cons_succ]
      exact le_trans (ih n hn) (le_max_right x (Mspec xs n))

theorem ddSpec_nonpos (s : List ℚ) (hpos : ∀ x ∈ s, 0 < x) (t : ℕ)
    (ht : t < s.length) : ddSpec s t ≤ 0 := by
  have hM : 0 < Mspec s t := Mspec_pos s hpos t ht
  rw [ddSpec]
  exact div_nonpos_of_nonpos_of_nonneg
    (sub_nonpos.mpr (getD_le_Mspec s t ht)) (le_of_lt hM)

theorem neg_one_lt_ddSpec (s : List ℚ) (hpos : ∀ x ∈ s, 0 < x) (t : ℕ)
    (ht : t < s.length) : -1 < ddSpec s t := by
  have hM : 0 < Mspec s t := Mspec_pos s hpos t ht
  have hx : 0 < s.getD t 0 := by
    rw [getD_eq_getElem_of_lt ht]
    exact hpos _ (List.getElem_mem ht)
  rw [ddSpec, lt_div_iff hM]
  linarith

theorem ddSpec_eq_zero_iff (s : List ℚ) (hpos : ∀ x ∈ s, 0 < x) (t : ℕ)
    (ht : t < s.length) : ddSpec s t = 0 ↔ Mspec s t = s.getD t 0 := by
  have hM : 0 < Mspec s t := Mspec_pos s hpos t ht
  rw [ddSpec, div_eq_zero_iff]
  constructor
  · intro h
    rcases h with h | h
    · exact (sub_eq_zero.mp h).symm
    · exact absurd h (ne_of_gt hM)
  · intro h
    exact Or.inl (sub_eq_zero.mpr h.symm)

/-! ### Claim C1 — max drawdown -/

/-- Claim C1: for every non-empty strictly positive price series,
`max_drawdown` returns the minimum over all `t` of
`(series[t] - M(t)) / M(t)` with `M(t) = max(series[0..t])` (it is a
lower bound of every `ddSpec s t` and attained at some `t`); the result
lies in `(-1, 0]`; it is `0` exactly when the running maximum equals the
price at every point; and on the concrete series
`[100, 110, 90, 95, 130]` it equals `-2/11`, attained at index 2. -/
theorem C1_max_drawdown :
    (∀ (s : List ℚ), s ≠ [] → (∀ x ∈ s, 0 < x) →
      ∃ m : ℚ, maxDrawdown s = some m ∧
        (∀ t, t < s.length → m ≤ ddSpec s t) ∧
        (∃ t, t < s.length ∧ m = ddSpec s t) ∧
        (-1 < m ∧ m ≤ 0) ∧
        (m = 0 ↔ ∀ t, t < s.length → Mspec s t = s.getD t 0)) ∧
    maxDrawdown [100, 110, 90, 95, 130] = some (-2 / 11) ∧
    ddSpec [100, 110, 90, 95, 130] 2 = -2 / 11 := by
  refine ⟨?_, ?_, ?_⟩
  · intro s hne hpos
    have hlen : 0 < s.length := List.length_pos.mpr hne
    have hddne : drawdowns s ≠ [] := by
      rw [← List.length_pos, drawdowns_length]
      exact hlen
    obtain ⟨m, hm⟩ := Option.isSome_iff_exists.mp (ser_min_isSome hddne)
    have hmem := ser_min_mem hm
    obtain ⟨t0, ht0, hval⟩ := List.mem_iff_getElem.mp hmem
    have ht0s : t0 < s.length := by rwa [drawdowns_length] at ht0
    have hrep : m = ddSpec s t0 := by
      rw [← hval, ← getD_eq_getElem_of_lt ht0, drawdowns_getD s t0 ht0s]
    have hbound : ∀ t, t < s.length → m ≤ ddSpec s t := by
      intro t ht
      have htd : t < (drawdowns s).length := by rwa [drawdowns_length]
      have hmem2 : (drawdowns s)[t] ∈ drawdowns s := List.getElem_mem htd
      have := ser_min_le hm _ hmem2
      rwa [← getD_eq_getElem_of_lt htd, drawdowns_getD s t ht] at this
    refine ⟨m, by rw [maxDrawdown, hm], hbound, ⟨t0, ht0s, hrep⟩, ?_, ?_⟩
    · constructor
      · rw [hrep]
        exact neg_one_lt_ddSpec s hpos t0 ht0s
      · rw [hrep]
        exact ddSpec_nonpos s hpos t0 ht0s
    · constructor
      · intro hm0 t ht
        have h1 : ddSpec s t ≤ 0 := ddSpec_nonpos s hpos t ht
        have h2 : (0 : ℚ) ≤ ddSpec s t := hm0 ▸ hbound t ht
        exact (ddSpec_eq_zero_iff s hpos t ht).mp (le_antisymm h1 h2)
      · intro hall
        rw [hrep, (ddSpec_eq_zero_iff s hpos t0 ht0s).mpr (hall t0 ht0s)]
  · norm_num [maxDrawdown, drawdowns, cummax, ser_min]
  · norm_num [ddSpec, Mspec]

/-- Witness for the universal part of `C1_max_drawdown`, instantiated at
the crash scenario series. -/
theorem C1_max_drawdown_witness :
    ∃ m : ℚ, maxDrawdown [100, 110, 90, 95, 130] = some m ∧
      (∀ t, t < ([100, 110, 90, 95, 130] : List ℚ).length →
        m ≤ ddSpec [100, 110, 90, 95, 130] t) ∧
      (∃ t, t < ([100, 110, 90, 95, 130] : List ℚ).length ∧
        m = ddSpec [100, 110, 90, 95, 130] t) ∧
      (-1 < m ∧ m ≤ 0) ∧
      (m = 0 ↔ ∀ t, t < ([100, 110, 90, 95, 130] : List ℚ).length →
        Mspec [100, 110, 90, 95, 130] t = ([100, 110, 90, 95, 130] : List ℚ).getD t 0) :=
  C1_max_drawdown.1 [100, 110, 90, 95, 130] (by simp)
    (by intro x hx; fin_cases hx <;> norm_num)

end StockAnalysis

namespace StockAnalysis

/-! ### Monotone-series lemmas -/

theorem cummax_eq_self_of_monotone :
    ∀ (s : List ℚ), List.Pairwise (fun a b : ℚ => a ≤ b) s → cummax s = s := by
  intro s
  induction s with
  | nil => intro _; rfl
  | cons x xs ih =>
    intro h
    rcases List.pairwise_cons.mp h with ⟨hx, ht⟩
    have hmap : xs.map (fun y => max x y) = xs.map (fun y => y) :=
      List.map_congr_left (fun a ha => max_eq_right (hx a ha))
    rw [cummax, ih ht, hmap, List.map_id']

theorem zipWith_self_eq_map (f : ℚ → ℚ → ℚ) :
    ∀ (s : List ℚ), List.zipWith f s s = s.map (fun x => f x x) := by
  intro s
  induction s with
  | nil => rfl
  | cons x xs ih => simp [ih]

/-! ### Claim C9 — non-decreasing series recover in 0 days -/

/-- Claim C9: on every non-empty monotonically non-decreasing price
series, `recovery_time` returns the numeric count 0, not the unrecovered
sentinel: every drawdown is 0, the earliest minimum puts the trough at
the first entry, the pre-trough peak is the first price, and the forward
scan succeeds at the trough itself. -/
theorem C9_nondecreasing_zero (ps : List (ℤ × ℚ)) (hne : ps ≠ [])
    (hpos : ∀ p ∈ ps, 0 < p.2)
    (hdates : List.Pairwise (fun p q : ℤ × ℚ => p.1 < q.1) ps)
    (hmono : List.Pairwise (fun p q : ℤ × ℚ => p.2 ≤ q.2) ps) :
    recoveryTime ps = .ok (some 0) := by
  match ps, hne with
  | e :: tl, _ =>
    have hmono' : List.Pairwise (fun a b : ℚ => a ≤ b) ((e :: tl).map Prod.snd) :=
      List.Pairwise.map Prod.snd (fun a b hab => hab) hmono
    have hcm : cummax ((e :: tl).map Prod.snd) = (e :: tl).map Prod.snd :=
      cummax_eq_self_of_monotone _ hmono'
    have hdd : drawdowns ((e :: tl).map Prod.snd) =
        ((e :: tl).map Prod.snd).map (fun _ => (0 : ℚ)) := by
      rw [drawdowns, hcm, zipWith_self_eq_map]
      exact List.map_congr_left (fun a _ => by simp)
    have hddc : drawdowns ((e :: tl).map Prod.snd) =
        0 :: (tl.map Prod.snd).map (fun _ => (0 : ℚ)) := by
      rw [hdd, List.map_cons, List.map_cons]
    have hmin : ser_min (drawdowns ((e :: tl).map Prod.snd)) = some 0 := by
      have hne2 : drawdowns ((e :: tl).map Prod.snd) ≠ [] := by
        rw [hddc]
        exact List.cons_ne_nil _ _
      obtain ⟨m, hm⟩ := Option.isSome_iff_exists.mp (ser_min_isSome hne2)
      have hmem := ser_min_mem hm
      rw [hdd] at hmem
      rcases List.mem_map.mp hmem with ⟨_, _, hm0⟩
      rw [← hm0] at hm
      exact hm
    have hfind : (drawdowns ((e :: tl).map Prod.snd)).findIdx
        (fun x => decide (x = 0)) = 0 := by
      rw [hddc, List.findIdx_cons]
      simp
    have htw : (e :: tl).takeWhile (fun p => decide (p.1 ≤ e.1)) = [e] := by
      rw [List.takeWhile_cons]
      simp only [le_refl, decide_True, if_true]
      cases tl with
      | nil => rfl
      | cons y ys =>
        have hy : e.1 < y.1 :=
          (List.pairwise_cons.mp hdates).1 y (List.mem_cons_self y ys)
        rw [List.takeWhile_cons]
        simp [not_le.mpr hy]
    have hdw : (e :: tl).dropWhile (fun p => decide (p.1 < e.1)) = e :: tl := by
      rw [List.dropWhile_cons]
      simp
    have hfd : (e :: tl).find? (fun q => decide (e.2 ≤ q.2)) = some e :=
      List.find?_cons_of_pos _ (by simp)
    simp only [recoveryTime, hmin, hfind, List.get?]
    rw [htw]
    simp only [List.map_cons, List.map_nil]
    have hsm : ser_max [e.2] = some e.2 := rfl
    rw [hsm, hdw]
    simp [hfd]

/-- Witness for `C9_nondecreasing_zero` on a concrete rising series. -/
theorem C9_nondecreasing_zero_witness :
    recoveryTime [((0 : ℤ), (1 : ℚ)), ((1 : ℤ), (2 : ℚ))] = .ok (some 0) :=
  C9_nondecreasing_zero [((0 : ℤ), (1 : ℚ)), ((1 : ℤ), (2 : ℚ))] (by simp)
    (by intro p hp; fin_cases hp <;> norm_num) (by decide)
    (by norm_num [List.pairwise_cons])

end StockAnalysis

namespace StockAnalysis

/-! ### Positional slicing lemmas for sorted date indices -/

theorem takeWhile_le_entry :
    ∀ (ps : List (ℤ × ℚ)), List.Pairwise (fun p q : ℤ × ℚ => p.1 < q.1) ps →
      ∀ (i : ℕ) (h : i < ps.length),
        ps.takeWhile (fun p => decide (p.1 ≤ (ps.get ⟨i, h⟩).1)) = ps.take (i + 1) := by
  intro ps
  induction ps with
  | nil => intro _ i h; simp at h
  | cons x tl ih =>
    intro hs i h
    rcases List.pairwise_cons.mp hs with ⟨hx, htl⟩
    cases i with
    | zero =>
      have hget0 : ((x :: tl).get ⟨0, h⟩) = x := rfl
      rw [hget0, List.takeWhile_cons]
      simp only [le_refl, decide_True, if_true]
      cases tl with
      | nil => rfl
      | cons y ys =>
        have hy : x.1 < y.1 := hx y (List.mem_cons_self y ys)
        rw [List.takeWhile_cons]
        simp [not_le.mpr hy]
    | succ n =>
      have hn : n < tl.length := by simpa using Nat.lt_of_succ_lt_succ h
      have hget : ((x :: tl).get ⟨n + 1, h⟩) = tl.get ⟨n, hn⟩ := rfl
      have hxle : x.1 ≤ (tl.get ⟨n, hn⟩).1 := le_of_lt (hx _ (List.get_mem tl n hn))
      rw [hget, List.takeWhile_cons]
      simp only [hxle, decide_True, if_true]
      rw [ih htl n hn]
      rfl

theorem dropWhile_lt_entry :
    ∀ (ps : List (ℤ × ℚ)), List.Pairwise (fun p q : ℤ × ℚ => p.1 < q.1) ps →
      ∀ (i : ℕ) (h : i < ps.length),
        ps.dropWhile (fun p => decide (p.1 < (ps.get ⟨i, h⟩).1)) = ps.drop i := by
  intro ps
  induction ps with
  | nil => intro _ i h; simp at h
  | cons x tl ih =>
    intro hs i h
    rcases List.pairwise_cons.mp hs with ⟨hx, htl⟩
    cases i with
    | zero =>
      have hget0 : ((x :: tl).get ⟨0, h⟩) = x := rfl
      have hneg : ¬(x.1 < x.1) := lt_irrefl _
      rw [hget0]
      simp [List.dropWhile_cons, hneg]
    | succ n =>
      have hn : n < tl.length := by simpa using Nat.lt_of_succ_lt_succ h
      have hget : ((x :: tl).get ⟨n + 1, h⟩) = tl.get ⟨n, hn⟩ := rfl
      have hxlt : x.1 < (tl.get ⟨n, hn⟩).1 := hx _ (List.get_mem tl n hn)
      rw [hget, List.dropWhile_cons]
      simp only [hxlt, decide_True, if_true]
      rw [ih htl n hn]
      rfl

/-! ### Claim C2 — recovery time refines its specification -/

/-- Claim C2: for every non-empty strictly positive price series with
strictly increasing dates, `recovery_time` computes exactly the
specification `recoverySpec`: the trough is the earliest index attaining
the minimum drawdown, the peak is `max(series[0..t*])`, the forward scan
takes the first `t' ≥ t*` with `series[t'] ≥ peak`, and the result is
the day count `date(t') - date(t*)` when such `t'` exists and the
unrecovered sentinel `none` otherwise. -/
theorem C2_recovery_refines_spec (ps : List (ℤ × ℚ)) (hne : ps ≠ [])
    (hpos : ∀ p ∈ ps, 0 < p.2)
    (hdates : List.Pairwise (fun p q : ℤ × ℚ => p.1 < q.1) ps) :
    recoveryTime ps = .ok (recoverySpec ps) := by
  have hplen : (ps.map Prod.snd).length = ps.length := List.length_map _ _
  have hlen : 0 < ps.length := List.length_pos.mpr hne
  have hddlen : (drawdowns (ps.map Prod.snd)).length = ps.length := by
    rw [drawdowns_length, hplen]
  have hddne : drawdowns (ps.map Prod.snd) ≠ [] := by
    rw [← List.length_pos, hddlen]
    exact hlen
  obtain ⟨m, hm⟩ := Option.isSome_iff_exists.mp (ser_min_isSome hddne)
  have hmmem : m ∈ drawdowns (ps.map Prod.snd) := ser_min_mem hm
  set i := (drawdowns (ps.map Prod.snd)).findIdx (fun x => decide (x = m)) with hidef
  have hilt : i < (drawdowns (ps.map Prod.snd)).length :=
    List.findIdx_lt_length_of_exists ⟨m, hmmem, by simp⟩
  have hilt2 : i < ps.length := by rwa [hddlen] at hilt
  have hget : ps.get? i = some (ps.get ⟨i, hilt2⟩) := by
    rw [List.get?_eq_getElem?, List.getElem?_eq_getElem hilt2]
    rfl
  have htake := takeWhile_le_entry ps hdates i hilt2
  have hdrop := dropWhile_lt_entry ps hdates i hilt2
  have hmap : ((ps.take (i + 1)).map Prod.snd) = (ps.map Prod.snd).take (i + 1) :=
    List.map_take _ _ _
  have htkne : (ps.map Prod.snd).take (i + 1) ≠ [] := by
    rw [← List.length_pos, List.length_take, hplen]
    omega
  obtain ⟨peak, hpeak⟩ := Option.isSome_iff_exists.mp (ser_max_isSome htkne)
  have hspec : troughIdxSpec (ps.map Prod.snd) = i := by
    rw [troughIdxSpec, ← drawdowns_eq_ddListSpec, hm]
  cases hfind : (ps.drop i).find? (fun q => decide (peak ≤ q.2)) with
  | some r =>
    have hL : recoveryTime ps = .ok (some (r.1 - (ps.get ⟨i, hilt2⟩).1)) := by
      simp only [recoveryTime, hm, ← hidef, hget, htake, hmap, hpeak, hdrop, hfind]
    have hR : recoverySpec ps = some (r.1 - (ps.get ⟨i, hilt2⟩).1) := by
      simp only [recoverySpec, hspec, hget, hpeak, hfind]
    rw [hL, hR]
  | none =>
    have hL : recoveryTime ps = .ok none := by
      simp only [recoveryTime, hm, ← hidef, hget, htake, hmap, hpeak, hdrop, hfind]
    have hR : recoverySpec ps = none := by
      simp only [recoverySpec, hspec, hget, hpeak, hfind]
    rw [hL, hR]

/-- Witness for `C2_recovery_refines_spec` at the crash scenario series
(with day-ordinal dates 0..4). -/
theorem C2_recovery_refines_spec_witness :
    recoveryTime [((0 : ℤ), (100 : ℚ)), ((1 : ℤ), (110 : ℚ)), ((2 : ℤ), (90 : ℚ)),
        ((3 : ℤ), (95 : ℚ)), ((4 : ℤ), (130 : ℚ))] =
      .ok (recoverySpec [((0 : ℤ), (100 : ℚ)), ((1 : ℤ), (110 : ℚ)), ((2 : ℤ), (90 : ℚ)),
        ((3 : ℤ), (95 : ℚ)), ((4 : ℤ), (130 : ℚ))]) :=
  C2_recovery_refines_spec _ (by simp) (by intro p hp; fin_cases hp <;> norm_num)
    (by decide)

end StockAnalysis

namespace StockAnalysis

/-! ### Correlation lemmas and claim C4 -/

theorem cex_pcA : pctChange cexIdx = [(0, none), (1, some 1), (2, some (-(1/2)))] := by
  norm_num [cexIdx, pctChange, pctChangeGo]

theorem cex_pcF : pctChange cexDisjoint = [(10, none), (11, some 0)] := by
  norm_num [cexDisjoint, pctChange, pctChangeGo]

theorem cex_ret : dropna (pctChange cexIdx) = [(1, 1), (2, -(1/2))] := by
  rw [cex_pcA]
  simp [dropna]

theorem cex_retF : dropna (pctChange cexDisjoint) = [(11, 0)] := by
  rw [cex_pcF]
  simp [dropna]

theorem cex_colA : alignCol [1, 2] (pctChange cexIdx) = [some 1, some (-(1/2))] := by
  rw [cex_pcA]
  simp [alignCol, List.lookup]

theorem cex_colF : alignCol [1, 2] (pctChange cexDisjoint) = [none, none] := by
  rw [cex_pcF]
  simp [alignCol, List.lookup]

theorem cex_cols : corrCols cexIdx cexSectors =
    [[some 1, some (-(1/2))], [some 1, some (-(1/2))], [some 1, some (-(1/2))],
     [some 1, some (-(1/2))], [some 1, some (-(1/2))], [none, none]] := by
  simp only [corrCols, cex_ret]
  simp [cexSectors, cex_colA, cex_colF]

theorem cex_pair : pairObs [some 1, some (-(1/2))] [some 1, some (-(1/2))] =
    [(1, 1), (-(1/2), -(1/2))] := by
  simp [pairObs]

theorem cex_rep : corrRep [(1, 1), (-(1/2), -(1/2))] = some 1 := by
  have habs : |(9:ℚ)/8| = 9/8 := abs_of_pos (by norm_num)
  norm_num [corrRep, mean, habs]

theorem cex_code_entry :
    ((corrMatrix cexIdx cexSectors).getD 0 []).getD 1 none = some 1 := by
  simp only [corrMatrix, cex_cols]
  simp only [List.map_cons, List.map_nil, List.getD_cons_zero, List.getD_cons_succ]
  rw [cex_pair, cex_rep]

theorem cex_common : commonDates
    ((dropna (pctChange cexIdx) :: cexSectors.map (fun s => dropna (pctChange s))).map
      (fun l => l.map Prod.fst)) = [] := by
  simp [cexSectors, cex_ret, cex_retF, commonDates]

theorem cex_spec_entry :
    ((specCorrMatrix cexIdx cexSectors).getD 0 []).getD 1 none = none := by
  simp only [specCorrMatrix]
  rw [cex_common]
  simp [cexSectors, cex_ret, cex_retF, corrRep, mean]

/-- Claim C4 counterexample: in the concrete universe `cexIdx` /
`cexSectors` (an index, four sectors equal to it, and one sector with
disjoint dates — six return series in all), the date intersection of all
six return series is empty, so by the claim every off-diagonal entry
should be undefined and equal to the Pearson statistic over that shared
(empty) set; yet the code's entry for (index, sector 1) is the defined
value 1, because `DataFrame.corr()` deletes missing data pairwise, not
over the common intersection of all columns. -/
theorem C4_counterexample :
    commonDates ((dropna (pctChange cexIdx) ::
        cexSectors.map (fun s => dropna (pctChange s))).map
      (fun l => l.map Prod.fst)) = [] ∧
    ((corrMatrix cexIdx cexSectors).getD 0 []).getD 1 none = some 1 ∧
    ((specCorrMatrix cexIdx cexSectors).getD 0 []).getD 1 none = none ∧
    ((corrMatrix cexIdx cexSectors).getD 0 []).getD 1 none ≠
      ((specCorrMatrix cexIdx cexSectors).getD 0 []).getD 1 none := by
  refine ⟨cex_common, cex_code_entry, cex_spec_entry, ?_⟩
  rw [cex_code_entry, cex_spec_entry]
  simp

theorem pctChangeGo_fst (prev : ℚ) :
    ∀ (s : List (ℤ × ℚ)), (pctChangeGo prev s).map Prod.fst = s.map Prod.fst := by
  intro s
  induction s generalizing prev with
  | nil => rfl
  | cons e rest ih =>
    obtain ⟨d, p⟩ := e
    simp [pctChangeGo, ih]

theorem pctChange_fst (s : List (ℤ × ℚ)) :
    (pctChange s).map Prod.fst = s.map Prod.fst := by
  cases s with
  | nil => rfl
  | cons e rest =>
    obtain ⟨d, p⟩ := e
    simp [pctChange, pctChangeGo_fst]

theorem lookup_eq_some_of_mem_nodup {β : Type} :
    ∀ (l : List (ℤ × β)), (l.map Prod.fst).Nodup →
      ∀ (a : ℤ) (b : β), (a, b) ∈ l → l.lookup a = some b := by
  intro l
  induction l with
  | nil => intro _ a b hmem; simp at hmem
  | cons x tl ih =>
    intro hnd a b hmem
    obtain ⟨k, v⟩ := x
    rw [List.map_cons, List.nodup_cons] at hnd
    rcases List.mem_cons.mp hmem with heq | htl
    · rcases Prod.mk.injEq .. ▸ heq with ⟨h1, h2⟩
      subst h1
      subst h2
      simp [List.lookup]
    · have hne : a ≠ k := by
        intro hak
        subst hak
        exact hnd.1 (List.mem_map.mpr ⟨(a, b), htl, rfl⟩)
      have hbeq : (a == k) = false := beq_eq_false_iff_ne.mpr hne
      simp [List.lookup, hbeq]
      exact ih hnd.2 a b htl

theorem dropna_mem {l : List (ℤ × Option ℚ)} {d : ℤ} {v : ℚ}
    (h : (d, v) ∈ dropna l) : (d, some v) ∈ l := by
  rcases List.mem_filterMap.mp h with ⟨a, ha, hav⟩
  obtain ⟨ad, av⟩ := a
  cases av with
  | none => simp at hav
  | some w =>
    simp only [Option.map_some'] at hav
    rcases Prod.mk.injEq .. ▸ Option.some.injEq .. ▸ hav with ⟨h1, h2⟩
    subst h1
    subst h2
    exact ha

theorem retCol_eq_alignCol (idx : List (ℤ × ℚ))
    (hnd : List.Pairwise (fun p q : ℤ × ℚ => p.1 < q.1) idx) :
    (dropna (pctChange idx)).map (fun q => some q.2) =
      alignCol ((dropna (pctChange idx)).map Prod.fst) (pctChange idx) := by
  rw [alignCol, List.map_map]
  symm
  apply List.map_congr_left
  intro q hq
  have hkeys : ((pctChange idx).map Prod.fst).Nodup := by
    rw [pctChange_fst]
    exact (List.Pairwise.map Prod.fst (fun a b h => h) hnd).imp ne_of_lt
  have hq2 : (q.1, q.2) ∈ dropna (pctChange idx) := by
    rw [Prod.mk.eta]
    exact hq
  have hmem : (q.1, some q.2) ∈ pctChange idx := dropna_mem hq2
  show ((pctChange idx).lookup q.1).join = some q.2
  rw [lookup_eq_some_of_mem_nodup _ hkeys _ _ hmem]
  rfl

theorem filterMap_congr_fun :
    ∀ (D : List ℤ) (f g : ℤ → Option (ℚ × ℚ)), (∀ d, f d = g d) →
      D.filterMap f = D.filterMap g := by
  intro D f g hfg
  induction D with
  | nil => rfl
  | cons d tl ih => simp [List.filterMap_cons, hfg d, ih]

theorem pairObs_align (D : List ℤ) (sa sb : List (ℤ × Option ℚ)) :
    pairObs (alignCol D sa) (alignCol D sb) =
      D.filterMap (fun d =>
        match ((sa.lookup d).join), ((sb.lookup d).join) with
        | some x, some y => some (x, y)
        | _, _ => none) := by
  rw [pairObs, alignCol, alignCol, List.zip_map', List.filterMap_map]
  apply filterMap_congr_fun
  intro d
  show (fun q : Option ℚ × Option ℚ =>
    match q with
    | (some a, some b) => some (a, b)
    | _ => none) (((sa.lookup d).join), ((sb.lookup d).join)) = _
  cases (sa.lookup d).join <;> cases (sb.lookup d).join <;> rfl

/-- Claim C4, amended: every entry of the correlation matrix is the
Pearson statistic (in the signed-square representation of `corrRep`)
computed by pairwise deletion — the entry for series `a` and `b` uses
exactly the dates of the index-return series at which both `a` and `b`
have a present (non-missing) return after alignment, and different
entries may therefore use different date sets; an entry can be defined
even when the intersection of the dates of all six series is empty. -/
theorem C4_corr_pairwise (idx : List (ℤ × ℚ)) (sectors : List (List (ℤ × ℚ)))
    (hnd : List.Pairwise (fun p q : ℤ × ℚ => p.1 < q.1) idx) :
    corrMatrix idx sectors =
      (seriesOfCol idx sectors).map (fun a => (seriesOfCol idx sectors).map (fun b =>
        corrRep (((dropna (pctChange idx)).map Prod.fst).filterMap (fun d =>
          match ((a.lookup d).join), ((b.lookup d).join) with
          | some x, some y => some (x, y)
          | _, _ => none)))) := by
  have hcols : corrCols idx sectors =
      (seriesOfCol idx sectors).map
        (alignCol ((dropna (pctChange idx)).map Prod.fst)) := by
    simp only [corrCols, seriesOfCol, List.map_cons]
    congr 1
    · exact retCol_eq_alignCol idx hnd
    · rw [List.map_map]
      rfl
  simp only [corrMatrix]
  rw [hcols, List.map_map]
  apply List.map_congr_left
  intro a _
  simp only [Function.comp_apply]
  rw [List.map_map]
  apply List.map_congr_left
  intro b _
  simp only [Function.comp_apply]
  rw [pairObs_align]

/-- Witness for `C4_corr_pairwise` on the concrete counterexample
universe. -/
theorem C4_corr_pairwise_witness :
    corrMatrix cexIdx [cexDisjoint] =
      (seriesOfCol cexIdx [cexDisjoint]).map
        (fun a => (seriesOfCol cexIdx [cexDisjoint]).map (fun b =>
          corrRep (((dropna (pctChange cexIdx)).map Prod.fst).filterMap (fun d =>
            match ((a.lookup d).join), ((b.lookup d).join) with
            | some x, some y => some (x, y)
            | _, _ => none)))) :=
  C4_corr_pairwise cexIdx [cexDisjoint] (by decide)

end StockAnalysis
